import Mathlib

set_option maxRecDepth 100000

/-!
# A verification development for the rust-btc core

This file gives a shallow embedding, in Lean 4, of the core data model and
operations of the `rust-btc` repository (transactions, UTXO set, wallet,
blocks, blockchain, mempool, Merkle tree), and proves or refutes the
specification claims about them.

Modelling conventions:
* Byte strings are `List Nat` with every element `< 256`.
* Rust `String` is Lean `String`; all strings that are ever serialized by the
  code are ASCII, so serialization maps each character to its code point.
* `i64` is `Int` (values in the programs stay far from the boundaries; the
  serializer applies the two's-complement encoding explicitly).
* Ambient effects (the system clock) become explicit parameters: functions
  that call `SystemTime::now` take the current time as a `Nat` argument.
* Rust `HashMap` is an association list; iteration order, which the Rust code
  treats as arbitrary, is the list order.
* The potentially non-terminating loops (mining, Merkle level folding) are
  given explicit fuel; the fuel chosen by callers is always sufficient.
* `bincode::serialize` on the embedded types cannot fail, so the embedded
  serializers are total; Rust signatures returning `Result` only for the
  serializer keep a `Result`-free type here when no other failure exists.
* `f64` fee rates are modelled as exact rationals `ℚ`; every concrete fee
  comparison performed in the theorems below is between values on which the
  `f64` and `ℚ` orders agree (equal numerators and denominators).
-/

namespace RustBtc

/-! ## Bytes and words -/

/-- Truncate to a 32-bit word. -/
def w32 (n : Nat) : Nat := n % 4294967296

/-- Rotate a 32-bit word right by `n` bits. -/
def rotr (n x : Nat) : Nat := w32 ((x >>> n) ||| (x <<< (32 - n)))

/-- Rotate a 32-bit word left by `n` bits. -/
def rotl (n x : Nat) : Nat := w32 ((x <<< n) ||| (x >>> (32 - n)))

/-- Bitwise complement of a 32-bit word. -/
def wnot (x : Nat) : Nat := x ^^^ 4294967295

/-- `k` bytes, big-endian, of `v`. -/
def beBytes : Nat → Nat → List Nat
  | 0, _ => []
  | k + 1, v => beBytes k (v / 256) ++ [v % 256]

/-- `k` bytes, little-endian, of `v`. -/
def leBytes : Nat → Nat → List Nat
  | 0, _ => []
  | k + 1, v => v % 256 :: leBytes k (v / 256)

/-- Big-endian value of a byte list. -/
def bytesToNatBE (bs : List Nat) : Nat := bs.foldl (fun acc b => acc * 256 + b) 0

/-! ## SHA-256 -/

/-- The 64 SHA-256 round constants. -/
def sha256K : List Nat :=
  [1116352408, 1899447441, 3049323471, 3921009573, 961987163, 1508970993,
   2453635748, 2870763221, 3624381080, 310598401, 607225278, 1426881987,
   1925078388, 2162078206, 2614888103, 3248222580, 3835390401, 4022224774,
   264347078, 604807628, 770255983, 1249150122, 1555081692, 1996064986,
   2554220882, 2821834349, 2952996808, 3210313671, 3336571891, 3584528711,
   113926993, 338241895, 666307205, 773529912, 1294757372, 1396182291,
   1695183700, 1986661051, 2177026350, 2456956037, 2730485921, 2820302411,
   3259730800, 3345764771, 3516065817, 3600352804, 4094571909, 275423344,
   430227734, 506948616, 659060556, 883997877, 958139571, 1322822218,
   1537002063, 1747873779, 1955562222, 2024104815, 2227730452, 2361852424,
   2428436474, 2756734187, 3204031479, 3329325298]

/-- SHA-256 padding: `0x80`, zeros, then the 8-byte big-endian bit length. -/
def sha256Pad (msg : List Nat) : List Nat :=
  msg ++ [128] ++ List.replicate ((119 - msg.length % 64) % 64) 0
      ++ beBytes 8 (8 * msg.length)

/-- Big-endian 32-bit words of a byte list (whole words only). -/
def toWordsBE : List Nat → List Nat
  | a :: b :: c :: d :: r => (((a * 256 + b) * 256 + c) * 256 + d) :: toWordsBE r
  | _ => []

/-- Split a word list into 16-word blocks (whole blocks only). -/
def chunk16 : List Nat → List (List Nat)
  | w0 :: w1 :: w2 :: w3 :: w4 :: w5 :: w6 :: w7 ::
    w8 :: w9 :: w10 :: w11 :: w12 :: w13 :: w14 :: w15 :: r =>
      [w0, w1, w2, w3, w4, w5, w6, w7, w8, w9, w10, w11, w12, w13, w14, w15]
        :: chunk16 r
  | _ => []

/-- Extend a 16-word block by `n` further schedule words. -/
def sha256Extend : Nat → List Nat → List Nat
  | 0, ws => ws
  | n + 1, ws =>
    let t := ws.length
    let x15 := ws.getD (t - 15) 0
    let x2 := ws.getD (t - 2) 0
    let s0 := (rotr 7 x15) ^^^ (rotr 18 x15) ^^^ (x15 >>> 3)
    let s1 := (rotr 17 x2) ^^^ (rotr 19 x2) ^^^ (x2 >>> 10)
    sha256Extend n (ws ++ [w32 (ws.getD (t - 16) 0 + s0 + ws.getD (t - 7) 0 + s1)])

/-- The running SHA-256 state: eight 32-bit words. -/
structure ShaState where
  a : Nat
  b : Nat
  c : Nat
  d : Nat
  e : Nat
  f : Nat
  g : Nat
  h : Nat

/-- The SHA-256 initial state. -/
def sha256Init : ShaState :=
  ⟨1779033703, 3144134277, 1013904242, 2773480762,
   1359893119, 2600822924, 528734635, 1541459225⟩

/-- One SHA-256 round, consuming one `(k, w)` pair. -/
def sha256Round (s : ShaState) (kw : Nat × Nat) : ShaState :=
  let s1 := (rotr 6 s.e) ^^^ (rotr 11 s.e) ^^^ (rotr 25 s.e)
  let ch := (s.e &&& s.f) ^^^ (wnot s.e &&& s.g)
  let t1 := w32 (s.h + s1 + ch + kw.1 + kw.2)
  let s0 := (rotr 2 s.a) ^^^ (rotr 13 s.a) ^^^ (rotr 22 s.a)
  let maj := (s.a &&& s.b) ^^^ (s.a &&& s.c) ^^^ (s.b &&& s.c)
  let t2 := w32 (s0 + maj)
  ⟨w32 (t1 + t2), s.a, s.b, s.c, w32 (s.d + t1), s.e, s.f, s.g⟩

/-- Compress one 16-word block into the state. -/
def sha256Block (s : ShaState) (block : List Nat) : ShaState :=
  let w := sha256Extend 48 block
  let r := (sha256K.zip w).foldl sha256Round s
  ⟨w32 (s.a + r.a), w32 (s.b + r.b), w32 (s.c + r.c), w32 (s.d + r.d),
   w32 (s.e + r.e), w32 (s.f + r.f), w32 (s.g + r.g), w32 (s.h + r.h)⟩

/-- The big-endian digest bytes of a SHA-256 state. -/
def digestBytes (s : ShaState) : List Nat :=
  beBytes 4 s.a ++ beBytes 4 s.b ++ beBytes 4 s.c ++ beBytes 4 s.d ++
  beBytes 4 s.e ++ beBytes 4 s.f ++ beBytes 4 s.g ++ beBytes 4 s.h

/-- SHA-256 of a byte list, as 32 bytes. -/
def sha256 (msg : List Nat) : List Nat :=
  digestBytes ((chunk16 (toWordsBE (sha256Pad msg))).foldl sha256Block sha256Init)

/-! ## Hex encoding -/

/-- The lowercase hex digits. -/
def hexChars : List Char := "0123456789abcdef".data

/-- Hex-encode a byte list (`hex::encode`). -/
def hexEncode (bs : List Nat) : String :=
  String.mk (bs.foldr (fun b r => hexChars.getD (b / 16) '0' :: hexChars.getD (b % 16) '0' :: r) [])

/-- The value of one hex digit, if valid. -/
def hexDigitVal (c : Char) : Option Nat :=
  hexChars.findIdx? (· == c)

/-- Hex-decode a character list into bytes (`hex::decode`). -/
def hexDecodeChars : List Char → Option (List Nat)
  | [] => some []
  | c1 :: c2 :: r => do
    let h ← hexDigitVal c1
    let l ← hexDigitVal c2
    let rest ← hexDecodeChars r
    pure ((h * 16 + l) :: rest)
  | _ => none

/-- Hex-decode a string into bytes (`hex::decode`). -/
def hexDecode (s : String) : Option (List Nat) := hexDecodeChars s.data

/-- SHA-256 of a byte list, hex-encoded (the ubiquitous
`hex::encode(hasher.finalize())` in the sources). -/
def sha256Hex (bs : List Nat) : String := hexEncode (sha256 bs)

/-! ## RIPEMD-160 -/

/-- Little-endian 32-bit words of a byte list (whole words only). -/
def toWordsLE : List Nat → List Nat
  | a :: b :: c :: d :: r => (((d * 256 + c) * 256 + b) * 256 + a) :: toWordsLE r
  | _ => []

/-- RIPEMD-160 padding: `0x80`, zeros, then the 8-byte little-endian bit
length. -/
def ripemdPad (msg : List Nat) : List Nat :=
  msg ++ [128] ++ List.replicate ((119 - msg.length % 64) % 64) 0
      ++ leBytes 8 (8 * msg.length)

/-- RIPEMD-160 message-word selection order, left line, rounds 0–79. -/
def ripemdRL : List Nat :=
  [0, 1, 2, 3, 4, 5, 6, 7, 8, 9, 10, 11, 12, 13, 14, 15,
   7, 4, 13, 1, 10, 6, 15, 3, 12, 0, 9, 5, 2, 14, 11, 8,
   3, 10, 14, 4, 9, 15, 8, 1, 2, 7, 0, 6, 13, 11, 5, 12,
   1, 9, 11, 10, 0, 8, 12, 4, 13, 3, 7, 15, 14, 5, 6, 2,
   4, 0, 5, 9, 7, 12, 2, 10, 14, 1, 3, 8, 11, 6, 15, 13]

/-- RIPEMD-160 message-word selection order, right line, rounds 0–79. -/
def ripemdRR : List Nat :=
  [5, 14, 7, 0, 9, 2, 11, 4, 13, 6, 15, 8, 1, 10, 3, 12,
   6, 11, 3, 7, 0, 13, 5, 10, 14, 15, 8, 12, 4, 9, 1, 2,
   15, 5, 1, 3, 7, 14, 6, 9, 11, 8, 12, 2, 10, 0, 4, 13,
   8, 6, 4, 1, 3, 11, 15, 0, 5, 12, 2, 13, 9, 7, 10, 14,
   12, 15, 10, 4, 1, 5, 8, 7, 6, 2, 13, 14, 0, 3, 9, 11]

/-- RIPEMD-160 rotation amounts, left line, rounds 0–79. -/
def ripemdSL : List Nat :=
  [11, 14, 15, 12, 5, 8, 7, 9, 11, 13, 14, 15, 6, 7, 9, 8,
   7, 6, 8, 13, 11, 9, 7, 15, 7, 12, 15, 9, 11, 7, 13, 12,
   11, 13, 6, 7, 14, 9, 13, 15, 14, 8, 13, 6, 5, 12, 7, 5,
   11, 12, 14, 15, 14, 15, 9, 8, 9, 14, 5, 6, 8, 6, 5, 12,
   9, 15, 5, 11, 6, 8, 13, 12, 5, 12, 13, 14, 11, 8, 5, 6]

/-- RIPEMD-160 rotation amounts, right line, rounds 0–79. -/
def ripemdSR : List Nat :=
  [8, 9, 9, 11, 13, 15, 15, 5, 7, 7, 8, 11, 14, 14, 12, 6,
   9, 13, 15, 7, 12, 8, 9, 11, 7, 7, 12, 7, 6, 15, 13, 11,
   9, 7, 15, 11, 8, 6, 6, 14, 12, 13, 5, 14, 13, 13, 7, 5,
   15, 5, 8, 11, 14, 14, 6, 14, 6, 9, 12, 9, 12, 5, 15, 8,
   8, 5, 12, 9, 12, 5, 14, 6, 8, 13, 6, 5, 15, 13, 11, 11]

/-- RIPEMD-160 nonlinear function for round `j`. -/
def ripemdF (j x y z : Nat) : Nat :=
  if j < 16 then x ^^^ y ^^^ z
  else if j < 32 then (x &&& y) ||| (wnot x &&& z)
  else if j < 48 then (x ||| wnot y) ^^^ z
  else if j < 64 then (x &&& z) ||| (y &&& wnot z)
  else x ^^^ (y ||| wnot z)

/-- RIPEMD-160 additive constant for round `j`, left line. -/
def ripemdKL (j : Nat) : Nat :=
  if j < 16 then 0 else if j < 32 then 0x5a827999
  else if j < 48 then 0x6ed9eba1 else if j < 64 then 0x8f1bbcdc
  else 0xa953fd4e

/-- RIPEMD-160 additive constant for round `j`, right line. -/
def ripemdKR (j : Nat) : Nat :=
  if j < 16 then 0x50a28be6 else if j < 32 then 0x5c4dd124
  else if j < 48 then 0x6d703ef3 else if j < 64 then 0x7a6d76e9
  else 0

/-- One RIPEMD-160 line state: five 32-bit words. -/
structure RipemdState where
  a : Nat
  b : Nat
  c : Nat
  d : Nat
  e : Nat

/-- One step of one RIPEMD-160 line at round `j`, with the rotation/word
tables `ss`/`rr`, constant function `kk`, and nonlinear-function index `fj`
(which is `j` on the left line, `79 - j` on the right line). -/
def ripemdStep (x : List Nat) (ss rr : List Nat) (kk : Nat → Nat) (fj : Nat → Nat)
    (s : RipemdState) (j : Nat) : RipemdState :=
  let t := w32 (rotl (ss.getD j 0)
      (w32 (s.a + ripemdF (fj j) s.b s.c s.d + x.getD (rr.getD j 0) 0 + kk j)) + s.e)
  ⟨s.e, t, s.b, rotl 10 s.c, s.d⟩

/-- Compress one 16-word block into the RIPEMD-160 state. -/
def ripemdBlock (h : RipemdState) (x : List Nat) : RipemdState :=
  let idx := List.range 80
  let l := idx.foldl (ripemdStep x ripemdSL ripemdRL ripemdKL id) h
  let r := idx.foldl (ripemdStep x ripemdSR ripemdRR ripemdKR (79 - ·)) h
  ⟨w32 (h.b + l.c + r.d), w32 (h.c + l.d + r.e), w32 (h.d + l.e + r.a),
   w32 (h.e + l.a + r.b), w32 (h.a + l.b + r.c)⟩

/-- Split a word list into 16-word blocks and fold RIPEMD-160 compression. -/
def ripemd160 (msg : List Nat) : List Nat :=
  let init : RipemdState :=
    ⟨0x67452301, 0xefcdab89, 0x98badcfe, 0x10325476, 0xc3d2e1f0⟩
  let s := (chunk16 (toWordsLE (ripemdPad msg))).foldl ripemdBlock init
  leBytes 4 s.a ++ leBytes 4 s.b ++ leBytes 4 s.c ++ leBytes 4 s.d ++ leBytes 4 s.e

/-! ## Base58 -/

/-- The Bitcoin Base58 alphabet. -/
def b58Chars : List Char :=
  "123456789ABCDEFGHJKLMNPQRSTUVWXYZabcdefghijkmnopqrstuvwxyz".data

/-- Base58 digits (most significant first) of `n`, with `fuel` bounding the
number of divisions. -/
def natToB58 : Nat → Nat → List Char
  | 0, _ => []
  | _ + 1, 0 => []
  | fuel + 1, n => natToB58 fuel (n / 58) ++ [b58Chars.getD (n % 58) '1']

/-- Big-endian bytes (most significant first) of `n`, with `fuel` bounding the
number of divisions. -/
def natToBytesBE : Nat → Nat → List Nat
  | 0, _ => []
  | _ + 1, 0 => []
  | fuel + 1, n => natToBytesBE fuel (n / 256) ++ [n % 256]

/-- `bs58::encode`: leading zero bytes become `'1'`s, the remaining value is
written in base 58. -/
def b58Encode (bs : List Nat) : String :=
  let zeros := (bs.takeWhile (· == 0)).length
  String.mk (List.replicate zeros '1' ++ natToB58 (bs.length * 2 + 1) (bytesToNatBE bs))

/-- `bs58::decode`: `none` on a character outside the alphabet; leading `'1'`s
become zero bytes, the remaining value is read in base 58. -/
def b58Decode (s : String) : Option (List Nat) := do
  let digits ← s.data.mapM fun c => b58Chars.findIdx? (· == c)
  let n := digits.foldl (fun acc d => acc * 58 + d) 0
  let zeros := (s.data.takeWhile (· == '1')).length
  pure (List.replicate zeros 0 ++ natToBytesBE (s.length * 2 + 1) n)

/-! ## The error taxonomy (`src/error.rs`) -/

/-- The crate-wide error type `RustBtcError` (string context per kind; only
the kinds reachable from the embedded operations are listed). -/
inductive Error where
  | ValidationError (msg : String)
  | SerializationError (msg : String)
  | IOError (msg : String)
  | HashError (msg : String)
  | InvalidTransaction (msg : String)
  | InvalidAmount (msg : String)
  | InvalidFee (msg : String)
  | InvalidSignature (msg : String)
  | UTXOError (msg : String)
  | InvalidAddress (msg : String)
  | InsufficientFunds (msg : String)
deriving DecidableEq

/-! ## Transactions (`src/transaction.rs`) -/

/-- `TxInput`: reference to a prior output plus signature material and the
redundantly stored consumed value. -/
structure TxInput where
  txid : String
  vout : Nat
  signature : List Nat
  pubkey : List Nat
  value : Int
deriving DecidableEq

/-- `TxOutput`: an amount and the raw Base58-decoded owner binding. -/
structure TxOutput where
  value : Int
  pubkey_hash : List Nat
deriving DecidableEq

/-- `Transaction`: id, inputs, outputs. -/
structure Transaction where
  id : String
  vin : List TxInput
  vout : List TxOutput
deriving DecidableEq

/-! ### bincode serialization

`bincode::serialize` with the crate's default configuration: fixed-width
little-endian integers, `u64` lengths for sequences and strings, raw bytes
for `Vec<u8>` and UTF-8 for `String` (all serialized strings here are
ASCII). -/

/-- The bytes of an (ASCII) string. -/
def strBytes (s : String) : List Nat := s.data.map Char.toNat

/-- bincode: `u64`, 8 bytes little-endian. -/
def serU64 (n : Nat) : List Nat := leBytes 8 n

/-- bincode: `u32`, 4 bytes little-endian. -/
def serU32 (n : Nat) : List Nat := leBytes 4 n

/-- bincode: `i64`, 8 bytes little-endian two's complement. -/
def serI64 (v : Int) : List Nat := leBytes 8 (v % 18446744073709551616).toNat

/-- bincode: `i32`, 4 bytes little-endian two's complement. -/
def serI32 (v : Int) : List Nat := leBytes 4 (v % 4294967296).toNat

/-- bincode: `Vec<u8>`, length prefix then raw bytes. -/
def serByteVec (bs : List Nat) : List Nat := serU64 bs.length ++ bs

/-- bincode: `String`, length prefix then UTF-8 bytes. -/
def serStr (s : String) : List Nat := serU64 (strBytes s).length ++ strBytes s

/-- bincode serialization of a `TxInput`, fields in declaration order. -/
def serTxInput (i : TxInput) : List Nat :=
  serStr i.txid ++ serU64 i.vout ++ serByteVec i.signature ++ serByteVec i.pubkey
    ++ serI64 i.value

/-- bincode serialization of a `TxOutput`, fields in declaration order. -/
def serTxOutput (o : TxOutput) : List Nat :=
  serI64 o.value ++ serByteVec o.pubkey_hash

/-- bincode serialization of a `Transaction`, fields in declaration order.
Note that the `id` field IS part of the encoding. -/
def serTransaction (tx : Transaction) : List Nat :=
  serStr tx.id ++ serU64 tx.vin.length ++ (tx.vin.map serTxInput).flatten
    ++ serU64 tx.vout.length ++ (tx.vout.map serTxOutput).flatten

/-! ### Transaction operations -/

/-- Rust `str::starts_with` on our strings. -/
def strStartsWith (s p : String) : Bool := p.data.isPrefixOf s.data

/-- `TxInput::new`: empty signature and pubkey. -/
def TxInput.new (txid : String) (vout : Nat) (value : Int) : TxInput :=
  ⟨txid, vout, [], [], value⟩

/-- `TxOutput::new`: positive amount, Base58-decoded address. -/
def TxOutput.new (value : Int) (address : String) : Except Error TxOutput :=
  if value ≤ 0 then .error (.InvalidAmount s!"交易输出金额 {value} 无效")
  else
    match b58Decode address with
    | none => .error (.InvalidAddress "base58 decode failure")
    | some h => .ok ⟨value, h⟩

/-- `Transaction::is_coinbase`: exactly one input whose txid starts with
`"0_"`. -/
def Transaction.isCoinbase (tx : Transaction) : Bool :=
  match tx.vin with
  | [i] => strStartsWith i.txid "0_"
  | _ => false

/-- The clone of `tx` with every input's signature and pubkey cleared, as
built inside `Transaction::hash`. The `id` field is NOT cleared. -/
def txStrip (tx : Transaction) : Transaction :=
  { tx with vin := tx.vin.map fun i => { i with signature := [], pubkey := [] } }

/-- `Transaction::hash`: SHA-256 (hex) of the bincode serialization of the
stripped clone. Total because `bincode::serialize` cannot fail on this
type. -/
def Transaction.hash (tx : Transaction) : String :=
  sha256Hex (serTransaction (txStrip tx))

/-! ### Wallet (`src/wallet.rs`) -/

/-- `Wallet`: raw secret and public key bytes. -/
structure Wallet where
  secret_key : List Nat
  public_key : List Nat
deriving DecidableEq

/-- The order of the secp256k1 group (the bound checked by
`SecretKey::from_slice`). -/
def secpOrder : Nat :=
  0xfffffffffffffffffffffffffffffffebaaedce6af48a03bbfd25e8cd0364141

/-- Whether a byte string parses as a secp256k1 secret key: 32 bytes whose
big-endian value is nonzero and below the group order. -/
def secretKeyOk (sk : List Nat) : Bool :=
  sk.length == 32 && decide (0 < bytesToNatBE sk) && decide (bytesToNatBE sk < secpOrder)

/-- Modelled from the spec: `ecdsa_sign(secret, msg32) → 64-byte compact
signature` (`secp256k1::sign_ecdsa` followed by `serialize_compact`; the
secp256k1 crate is outside this repository). Only the 64-byte length — 32
bytes of `r` and 32 of `s` — is relied on, so the stand-in emits the secret
and message bytes. -/
def ecdsaSignCompact (sk msg : List Nat) : List Nat := sk ++ msg

/-- `Wallet::sign`: `ValidationError` for a read-only wallet, then secret-key
parsing, then 32-byte message parsing, then signing. The two parse-failure
message strings come from the secp256k1 crate and are modelled as fixed
strings; no theorem relies on them. -/
def Wallet.sign (w : Wallet) (data : List Nat) : Except Error (List Nat) :=
  if w.secret_key = [] then .error (.ValidationError "无法使用只读钱包签名")
  else if ¬ secretKeyOk w.secret_key then .error (.InvalidSignature "malformed secret key")
  else if data.length ≠ 32 then .error (.InvalidSignature "message not 32 bytes")
  else .ok (ecdsaSignCompact w.secret_key data)

/-- `Wallet::get_address`: Base58Check of
`0x00 || RIPEMD160(SHA256(pubkey)) || checksum`. -/
def Wallet.getAddress (w : Wallet) : String :=
  let versionPayload := 0 :: ripemd160 (sha256 w.public_key)
  let checksum := (sha256 (sha256 versionPayload)).take 4
  b58Encode (versionPayload ++ checksum)

/-- `Transaction::sign`: no-op on a coinbase; otherwise hex-decode the
transaction hash and give every input the wallet's pubkey and a signature of
the hash bytes. The first failing input signing aborts the whole
operation, as `?` does in the Rust loop. -/
def Transaction.sign (tx : Transaction) (w : Wallet) : Except Error Transaction :=
  if tx.isCoinbase then .ok tx
  else
    match hexDecode tx.hash with
    | none => .error (.HashError "hex decode failure")
    | some hashBytes => do
      let vin2 ← tx.vin.mapM fun i => do
        let sig ← w.sign hashBytes
        pure { i with pubkey := w.public_key, signature := sig }
      pure { tx with vin := vin2 }

/-- `Transaction::new_coinbase` with the ambient `SystemTime` timestamp as an
explicit parameter: one sentinel input `"0_<ts>"` carrying `SUBSIDY = 50`,
one output of 50 to the recipient, id from the stripped hash. -/
def Transaction.newCoinbase (toAddr : String) (ts : Nat) : Except Error Transaction := do
  let out ← TxOutput.new 50 toAddr
  let tx : Transaction := ⟨"", [TxInput.new s!"0_{ts}" 0 50], [out]⟩
  pure { tx with id := tx.hash }

/-- `Transaction::verify_transaction_data`: nonempty inputs and outputs, all
output values positive, input total strictly greater than output total.
Total because the Rust `Result` is always `Ok` here. -/
def Transaction.verifyTransactionData (tx : Transaction) : Bool :=
  if tx.vin.isEmpty || tx.vout.isEmpty then false
  else if tx.vout.any (fun o => decide (o.value ≤ 0)) then false
  else
    let inputTotal : Int := (tx.vin.map (·.value)).foldl (· + ·) 0
    let outputTotal : Int := (tx.vout.map (·.value)).foldl (· + ·) 0
    decide (outputTotal < inputTotal)

/-- `Transaction::calculate_fee_rate`. The Rust value is an `f64`; it is
modelled as the exact rational. -/
def Transaction.calculateFeeRate (tx : Transaction) : ℚ :=
  if tx.isCoinbase then 0
  else
    let inputValue : Int := (tx.vin.map (·.value)).foldl (· + ·) 0
    let outputValue : Int := (tx.vout.map (·.value)).foldl (· + ·) 0
    let fee : Int := inputValue - outputValue
    let size : Nat := (serTransaction tx).length
    if 0 < size then (fee : ℚ) / (size : ℚ) else 0

/-! ## The UTXO set (`src/utxo.rs`)

The backing `HashMap<String, Vec<(usize, TxOutput)>>` is an association
list; the map's (arbitrary) iteration order is the list order. -/

/-- A UTXO map: txid to the live `(vout, output)` pairs of that
transaction. -/
abbrev UtxoMap := List (String × List (Nat × TxOutput))

/-- `UTXOSet`. -/
structure UTXOSet where
  utxos : UtxoMap
deriving DecidableEq

/-- Map lookup (`HashMap::get`). -/
def mapGet (m : UtxoMap) (k : String) : Option (List (Nat × TxOutput)) :=
  (m.find? (·.1 == k)).map (·.2)

/-- Map insertion (`HashMap::insert`): replace an existing binding, else
append. -/
def mapInsert (m : UtxoMap) (k : String) (v : List (Nat × TxOutput)) : UtxoMap :=
  if m.any (·.1 == k) then m.map fun p => if p.1 == k then (k, v) else p
  else m ++ [(k, v)]

/-- Map removal (`HashMap::remove`). -/
def mapRemove (m : UtxoMap) (k : String) : UtxoMap :=
  m.filter (¬ ·.1 == k)

/-- `UTXOSet::new`. -/
def UTXOSet.new : UTXOSet := ⟨[]⟩

/-- The spent-input removal step shared by `update` and `reindex`: drop
`(input.txid, input.vout)` and erase the txid entirely when its output list
becomes empty. -/
def spendInput (m : UtxoMap) (i : TxInput) : UtxoMap :=
  match mapGet m i.txid with
  | none => m
  | some outs =>
    let remaining := outs.filter fun p => ¬ p.1 == i.vout
    if remaining.isEmpty then mapRemove m i.txid
    else mapInsert m i.txid remaining

/-- The numbered outputs of a transaction, as stored in the UTXO map. -/
def enumOutputs (tx : Transaction) : List (Nat × TxOutput) := tx.vout.enum

/-- The per-transaction body of `UTXOSet::update`: spend the inputs of a
non-coinbase transaction, then insert (unconditionally, overwriting) the
transaction's outputs under its id. -/
def updateApplyTx (m : UtxoMap) (tx : Transaction) : UtxoMap :=
  let m1 := if tx.isCoinbase then m else tx.vin.foldl spendInput m
  mapInsert m1 tx.id (enumOutputs tx)

/-- `UTXOSet::update` over a block's transactions. Total because the Rust
`Result` is always `Ok`. -/
def UTXOSet.update (u : UTXOSet) (blockTxs : List Transaction) : UTXOSet :=
  ⟨blockTxs.foldl updateApplyTx u.utxos⟩

/-- The per-transaction body of `UTXOSet::reindex`: spend the inputs of a
non-coinbase transaction, then insert the outputs under the id — unless the
id is already present, in which case the insertion is skipped with a
warning. -/
def reindexApplyTx (m : UtxoMap) (tx : Transaction) : UtxoMap :=
  let m1 := if tx.isCoinbase then m else tx.vin.foldl spendInput m
  if m1.any (·.1 == tx.id) then m1
  else m1 ++ [(tx.id, enumOutputs tx)]

/-- `UTXOSet::exists_utxo`. -/
def UTXOSet.existsUtxo (u : UTXOSet) (txid : String) (vout : Nat) : Bool :=
  match mapGet u.utxos txid with
  | some outs => outs.any (·.1 == vout)
  | none => false

/-- `UTXOSet::find_utxo`. -/
def UTXOSet.findUtxo (u : UTXOSet) (txid : String) (vout : Nat) : Option TxOutput :=
  match mapGet u.utxos txid with
  | some outs => (outs.find? (·.1 == vout)).map (·.2)
  | none => none

/-- Modelled from the spec: `UTXOSet::find_transaction_output`, which
`Transaction::verify` calls but whose definition is not under `src/`; per
§4.5 it is the `find(txid, vout) → Option<TxOutput>` lookup, with the
absent case surfacing as a `UTXOError` through the caller's `?`. -/
def UTXOSet.findTransactionOutput (u : UTXOSet) (txid : String) (vout : Nat) :
    Except Error TxOutput :=
  match u.findUtxo txid vout with
  | some o => .ok o
  | none => .error (.UTXOError s!"UTXO not found: {txid}:{vout}")

/-- `UTXOSet::get_balance`: sum the outputs bound to the address's decoded
bytes. -/
def UTXOSet.getBalance (u : UTXOSet) (address : String) : Except Error Int :=
  match b58Decode address with
  | none => .error (.InvalidAddress "base58 decode failure")
  | some addrBytes =>
    .ok (u.utxos.foldl (fun acc p =>
      p.2.foldl (fun acc q =>
        if q.2.pubkey_hash = addrBytes then acc + q.2.value else acc) acc) 0)

/-- `UTXOInfo`. -/
structure UTXOInfo where
  txid : String
  vout : Nat
  value : Int
deriving DecidableEq

/-- The labelled-break accumulation loop of `find_spendable_outputs` over the
flattened `(txid, vout, output)` entries: push each matching output, stop as
soon as the running total reaches `amount`. Returns the total and the
selection. -/
def collectSpendable (entries : List (String × Nat × TxOutput)) (addrBytes : List Nat)
    (amount acc : Int) : Int × List UTXOInfo :=
  match entries with
  | [] => (acc, [])
  | (t, v, o) :: rest =>
    if o.pubkey_hash = addrBytes then
      let acc2 := acc + o.value
      if amount ≤ acc2 then (acc2, [⟨t, v, o.value⟩])
      else
        let r := collectSpendable rest addrBytes amount acc2
        (r.1, ⟨t, v, o.value⟩ :: r.2)
    else collectSpendable rest addrBytes amount acc

/-- `UTXOSet::find_spendable_outputs`: decode the address, accumulate
matching outputs in iteration order until the total reaches `amount`,
failing with `InsufficientFunds` when the whole set falls short. -/
def UTXOSet.findSpendableOutputs (u : UTXOSet) (address : String) (amount : Int) :
    Except Error (List UTXOInfo) :=
  match b58Decode address with
  | none => .error (.InvalidAddress "base58 decode failure")
  | some addrBytes =>
    let flat := (u.utxos.map fun p => p.2.map fun q => (p.1, q.1, q.2)).flatten
    let r := collectSpendable flat addrBytes amount 0
    if r.1 < amount then
      .error (.InsufficientFunds s!"可用余额 {r.1} 不足支付 {amount}")
    else .ok r.2

/-- `Transaction::new` (spend construction): positive amount, UTXO
selection, inputs from the selection, primary output, change output of
`accumulated - amount - 1` only when `accumulated > amount`, id from the
stripped hash, then signing. -/
def Transaction.new (fromWallet : Wallet) (toAddress : String) (amount : Int)
    (u : UTXOSet) : Except Error Transaction :=
  if amount ≤ 0 then .error (.InvalidAmount s!"交易金额 {amount} 无效")
  else do
    let utxos ← u.findSpendableOutputs fromWallet.getAddress amount
    let accumulated := (utxos.map (·.value)).foldl (· + ·) 0
    let inputs := utxos.map fun i => TxInput.new i.txid i.vout i.value
    if accumulated < amount then
      .error (.InsufficientFunds s!"余额不足: 需要 {amount}, 可用 {accumulated}")
    else do
      let primary ← TxOutput.new amount toAddress
      let outputs ←
        if amount < accumulated then do
          let change ← TxOutput.new (accumulated - amount - 1) fromWallet.getAddress
          pure [primary, change]
        else pure [primary]
      let tx0 : Transaction := ⟨"", inputs, outputs⟩
      Transaction.sign { tx0 with id := tx0.hash } fromWallet

/-- `Transaction::verify`: a coinbase is always valid; otherwise every input
must resolve in the UTXO set and the resolved input total must strictly
exceed the output total. -/
def Transaction.verify (tx : Transaction) (u : UTXOSet) : Except Error Bool :=
  if tx.isCoinbase then .ok true
  else do
    let inputValue ← tx.vin.foldlM
      (fun acc i => (u.findTransactionOutput i.txid i.vout).map (acc + ·.value)) 0
    let outputValue := (tx.vout.map (·.value)).foldl (· + ·) 0
    if inputValue ≤ outputValue then
      .error (.InvalidAmount s!"输入总额 {inputValue} 必须大于输出总额 {outputValue}")
    else .ok true

/-! ## Blocks (`src/block.rs`) -/

/-- `Block`. -/
structure Block where
  version : Int
  timestamp : Nat
  transactions : List Transaction
  prev_block_hash : String
  merkle_root : String
  hash : String
  nonce : Nat
  height : Nat
  bits : Nat
deriving DecidableEq

/-- bincode serialization of a `Block`, fields in declaration order. Note
that the current `hash` field IS part of the encoding. -/
def serBlock (b : Block) : List Nat :=
  serI32 b.version ++ serU64 b.timestamp ++ serU64 b.transactions.length
    ++ (b.transactions.map serTransaction).flatten ++ serStr b.prev_block_hash
    ++ serStr b.merkle_root ++ serStr b.hash ++ serU64 b.nonce
    ++ serU64 b.height ++ serU32 b.bits

/-- `Block::calculate_hash`: SHA-256 (hex) of the block's serialization — as
the block currently stands, `hash` field included. -/
def Block.calculateHash (b : Block) : String := sha256Hex (serBlock b)

/-- One level of `Block::calculate_merkle_root`: hash string pairs; a
trailing odd element is hashed with itself. -/
def blockMerklePair : List String → List String
  | [] => []
  | [x] => [sha256Hex (strBytes x ++ strBytes x)]
  | x :: y :: r => sha256Hex (strBytes x ++ strBytes y) :: blockMerklePair r

/-- The level-folding loop of `Block::calculate_merkle_root`, with fuel (the
initial level length suffices). -/
def blockMerkleLevels : Nat → List String → List String
  | 0, hs => hs
  | f + 1, hs => if hs.length ≤ 1 then hs else blockMerkleLevels f (blockMerklePair hs)

/-- `Block::calculate_merkle_root`: the 64-zero string for no transactions,
else fold the transaction hash strings pairwise. -/
def calculateMerkleRoot (txs : List Transaction) : String :=
  if txs.isEmpty then
    "0000000000000000000000000000000000000000000000000000000000000000"
  else
    let hashes := txs.map Transaction.hash
    (blockMerkleLevels hashes.length hashes).headD ""

/-- `Block::new` with the ambient `SystemTime` timestamp as an explicit
parameter: version 1, fresh merkle root, empty hash field replaced by the
calculated hash, nonce 0, height 0, bits `0x1d00ffff`. -/
def Block.new (transactions : List Transaction) (prevBlockHash : String) (ts : Nat) :
    Block :=
  let b : Block :=
    ⟨1, ts, transactions, prevBlockHash, calculateMerkleRoot transactions, "", 0, 0,
      0x1d00ffff⟩
  { b with hash := b.calculateHash }

/-- A string of `d` `'0'`s (`"0".repeat(difficulty)`). -/
def zeroTarget (d : Nat) : String := String.mk (List.replicate d '0')

/-- `Block::mine_block`, with fuel for the unbounded search: while the stored
hash misses the target, increment the nonce and recompute the hash — over a
serialization still carrying the PREVIOUS stored hash in the `hash`
field. -/
def mineBlockFuel : Nat → Block → Nat → Option Block
  | 0, b, d => if strStartsWith b.hash (zeroTarget d) then some b else none
  | f + 1, b, d =>
    if strStartsWith b.hash (zeroTarget d) then some b
    else
      let b1 := { b with nonce := b.nonce + 1 }
      mineBlockFuel f { b1 with hash := b1.calculateHash } d

/-- `Block::is_valid` with the ambient clock as a parameter: timestamp not in
the future, at least one transaction, coinbase first, and every
transaction's data check passes. Total because the Rust `Result` is always
`Ok`. -/
def Block.isValid (b : Block) (now : Nat) : Bool :=
  if now < b.timestamp then false
  else
    match b.transactions with
    | [] => false
    | t0 :: _ =>
      if ¬ t0.isCoinbase then false
      else b.transactions.all Transaction.verifyTransactionData

/-! ## Blockchain (`src/blockchain.rs`) -/

/-- `BlockchainError`. -/
inductive BlockchainError where
  | SerializationError (msg : String)
  | ValidationError (msg : String)
  | InvalidBlock (msg : String)
  | InvalidChain (msg : String)
  | BlockNotFound (msg : String)
  | TransactionError (msg : String)
  | UTXOError (msg : String)
  | IOError (msg : String)
deriving DecidableEq

/-- A printable rendering of a crate error, standing in for the `Display`
strings that cross the (missing) error conversions; no theorem depends on
these strings. -/
def errString : Error → String
  | .ValidationError m => s!"验证错误: {m}"
  | .SerializationError m => s!"序列化错误: {m}"
  | .IOError m => s!"IO错误: {m}"
  | .HashError m => s!"哈希错误: {m}"
  | .InvalidTransaction m => s!"无效交易: {m}"
  | .InvalidAmount m => s!"无效金额: {m}"
  | .InvalidFee m => s!"无效手续费: {m}"
  | .InvalidSignature m => s!"无效签名: {m}"
  | .UTXOError m => s!"UTXO错误: {m}"
  | .InvalidAddress m => s!"无效地址: {m}"
  | .InsufficientFunds m => s!"资金不足: {m}"

/-- `Blockchain`. -/
structure Blockchain where
  blocks : List Block
  current_hash : String
deriving DecidableEq

/-- `Blockchain::new`. -/
def Blockchain.new : Blockchain := ⟨[], ""⟩

/-- The per-transaction verification loop in `Blockchain::add_block`, which
runs every transaction against a FRESH empty UTXO set. -/
def addBlockTxCheck : List Transaction → Except BlockchainError Unit
  | [] => .ok ()
  | tx :: rest =>
    match tx.verify UTXOSet.new with
    | .error e => .error (.ValidationError (errString e))
    | .ok ok =>
      if ok then addBlockTxCheck rest
      else .error (.InvalidBlock s!"区块中的交易 {tx.hash} 验证失败")

/-- `Blockchain::add_block` with the ambient clock as a parameter: size and
length bounds, tip linkage, block validity, per-transaction verification,
then append and advance the tip. -/
def Blockchain.addBlock (c : Blockchain) (block : Block) (now : Nat) :
    Except BlockchainError Blockchain :=
  let blockSize := (serBlock block).length
  if 1000000 < blockSize then
    .error (.InvalidBlock s!"区块大小 {blockSize} 超过最大限制 1000000")
  else if 1000000 ≤ c.blocks.length then
    .error (.InvalidChain s!"区块链长度 {c.blocks.length} 超过最大限制 1000000")
  else if ¬ c.current_hash.isEmpty ∧ block.prev_block_hash ≠ c.current_hash then
    .error (.InvalidBlock
      s!"区块的前一个哈希 {block.prev_block_hash} 与当前哈希 {c.current_hash} 不匹配")
  else if ¬ block.isValid now then .error (.InvalidBlock "区块验证失败")
  else do
    addBlockTxCheck block.transactions
    pure ⟨c.blocks ++ [block], block.hash⟩

/-- `Blockchain::get_block_height`. -/
def Blockchain.getBlockHeight (c : Blockchain) : Nat := c.blocks.length

/-! ## Mempool (`src/mempool.rs`) -/

/-- `MempoolError`. -/
inductive MempoolError where
  | ValidationError (msg : String)
  | DuplicateTransaction (msg : String)
  | TransactionNotFound (msg : String)
  | CapacityExceeded (msg : String)
  | UTXOError (msg : String)
  | InvalidAmount (msg : String)
  | InvalidFee (msg : String)
  | SerializationError (msg : String)
  | TransactionError (msg : String)
deriving DecidableEq

/-- `TransactionEntry`: the transaction with its arrival time and admission
fee rate (the `f64` fee is modelled as `ℚ`). -/
structure TransactionEntry where
  transaction : Transaction
  timestamp : Nat
  fee : ℚ
  validation_result : Bool
deriving DecidableEq

/-- `MIN_FEE_RATE = 0.00001`. -/
def minFeeRate : ℚ := 1 / 100000

/-- `Mempool`: the concurrent map is an association list keyed by the stored
hash; the (unused) validation cache is omitted; the shared UTXO view and
capacity are carried. -/
structure Mempool where
  transactions : List (String × TransactionEntry)
  utxo_set : UTXOSet
  max_size : Nat
deriving DecidableEq

/-- `Mempool::new` (capacity `MAX_MEMPOOL_SIZE = 5000`). -/
def Mempool.new (u : UTXOSet) : Mempool := ⟨[], u, 5000⟩

/-- The input-sum loop of `Mempool::validate_transaction`: the first
non-positive input value aborts. The Rust code reads `tx.inputs`, the field
the `Transaction` struct declares as `vin`. -/
def sumInputsChecked : List TxInput → Int → Except MempoolError Int
  | [], acc => .ok acc
  | i :: rest, acc =>
    if i.value ≤ 0 then .error (.InvalidAmount s!"输入金额 {i.value} 必须大于0")
    else sumInputsChecked rest (acc + i.value)

/-- The output-sum loop of `Mempool::validate_transaction`: the first
non-positive output value aborts. -/
def sumOutputsChecked : List TxOutput → Int → Except MempoolError Int
  | [], acc => .ok acc
  | o :: rest, acc =>
    if o.value ≤ 0 then .error (.InvalidAmount s!"输出金额 {o.value} 必须大于0")
    else sumOutputsChecked rest (acc + o.value)

/-- The per-input liveness-and-signature loop of
`Mempool::validate_transaction`. -/
def checkInputsLive (u : UTXOSet) : List TxInput → Except MempoolError Unit
  | [] => .ok ()
  | i :: rest =>
    if ¬ u.existsUtxo i.txid i.vout then
      let t := i.txid
      let v := i.vout
      .error (.UTXOError s!"UTXO {t}:{v} 不存在或已被使用")
    else if i.signature.isEmpty then
      .error (.ValidationError "交易输入必须包含有效签名")
    else checkInputsLive u rest

/-- `Mempool::validate_transaction`: nonempty inputs/outputs, positive
values, strict input > output, live UTXOs with signatures, then
`Transaction::verify`. A crate error from `verify` crosses into
`MempoolError` as a `ValidationError` (the Rust code's `?` has no matching
`From` impl; the wrapping is modelled and unreachable in the theorems
below). -/
def Mempool.validateTransaction (mp : Mempool) (tx : Transaction) :
    Except MempoolError Unit := do
  if tx.vin.isEmpty then .error (.ValidationError "交易输入不能为空")
  else if tx.vout.isEmpty then .error (.ValidationError "交易输出不能为空")
  else do
    let totalInput ← sumInputsChecked tx.vin 0
    let totalOutput ← sumOutputsChecked tx.vout 0
    if totalInput ≤ totalOutput then
      .error (.InvalidAmount s!"输入总额 {totalInput} 必须大于输出总额 {totalOutput}")
    else do
      checkInputsLive mp.utxo_set tx.vin
      match tx.verify mp.utxo_set with
      | .error e => .error (.ValidationError (errString e))
      | .ok ok =>
        if ok then pure () else .error (.ValidationError "交易验证失败")

/-- `Mempool::add_transaction` with the ambient clock as a parameter:
capacity, validation, size bound, duplicate check keyed on the freshly
computed hash, fee floor, then insertion. Returns the updated pool. -/
def Mempool.addTransaction (mp : Mempool) (tx : Transaction) (now : Nat) :
    Except MempoolError Mempool := do
  if mp.max_size ≤ mp.transactions.length then
    let ms := mp.max_size
    .error (.CapacityExceeded s!"内存池已达到最大容量 {ms}")
  else do
    mp.validateTransaction tx
    let txSize := (serTransaction tx).length
    if 100000 < txSize then
      .error (.ValidationError s!"交易大小 {txSize} 超过最大限制 100000")
    else
      let txHash := tx.hash
      if mp.transactions.any (·.1 == txHash) then
        .error (.DuplicateTransaction s!"交易 {txHash} 已存在于内存池中")
      else
        let fee := tx.calculateFeeRate
        if fee < minFeeRate then
          .error (.InvalidFee "手续费率低于最小要求")
        else
          pure { mp with
            transactions := mp.transactions ++ [(txHash, ⟨tx, now, fee, true⟩)] }

/-- `Mempool::size`. -/
def Mempool.size (mp : Mempool) : Nat := mp.transactions.length

/-- The comparator of `get_transactions_for_new_block`:
`b.fee.partial_cmp(&a.fee)`, i.e. fee rate descending, nothing else. -/
def entryGe (a b : TransactionEntry) : Prop := b.fee ≤ a.fee

instance : DecidableRel entryGe :=
  fun a b => inferInstanceAs (Decidable (b.fee ≤ a.fee))

instance : IsTotal TransactionEntry entryGe := ⟨fun a b => le_total b.fee a.fee⟩

instance : IsTrans TransactionEntry entryGe :=
  ⟨fun _ _ _ hab hbc => le_trans hbc hab⟩

/-- `Mempool::get_transactions_for_new_block`: snapshot the entries (in map
iteration order), stable-sort by fee rate descending only, take `max_size`,
and return the transactions. Rust's `sort_by` is a stable sort; so is
insertion sort, and a stable sort's output is determined by the comparator,
so the model sorts with `List.insertionSort`. -/
def Mempool.getTransactionsForNewBlock (mp : Mempool) (maxSize : Nat) :
    List Transaction :=
  let entries := mp.transactions.map (·.2)
  ((entries.insertionSort entryGe).take maxSize).map (·.transaction)

/-- Follows the spec's words, for comparison with
`Mempool.getTransactionsForNewBlock`: sort by fee rate descending, ties by
arrival timestamp ascending (older first), then by lexicographic txid. -/
def specEntryLe (a b : TransactionEntry) : Prop :=
  b.fee < a.fee ∨ (a.fee = b.fee ∧
    (a.timestamp < b.timestamp ∨ (a.timestamp = b.timestamp ∧
      a.transaction.id ≤ b.transaction.id)))

instance : DecidableRel specEntryLe :=
  fun a b => inferInstanceAs (Decidable (_ ∨ _))

/-- Follows the spec's words, for comparison with
`Mempool.getTransactionsForNewBlock`: the spec's claimed selection — the
first `max_size` transactions under the full three-key ordering. -/
def specGetTransactionsForBlock (mp : Mempool) (maxSize : Nat) :
    List Transaction :=
  let entries := mp.transactions.map (·.2)
  ((entries.insertionSort specEntryLe).take maxSize).map (·.transaction)

/-! ## Merkle tree (`src/merkle.rs`) -/

/-- The hash of a parent node (`MerkleNode::new_parent`): SHA-256 of the two
child hashes concatenated. -/
def merkleCombine (a b : List Nat) : List Nat := sha256 (a ++ b)

/-- One level of tree building: combine the chunks of two, carry a trailing
odd node unchanged. -/
def merklePairUp : List (List Nat) → List (List Nat)
  | [] => []
  | [x] => [x]
  | x :: y :: r => merkleCombine x y :: merklePairUp r

/-- The level-folding loop of `MerkleTree::new`, with fuel (the leaf count
suffices): fold levels until one node remains, returning its hash. -/
def merkleRootFuel : Nat → List (List Nat) → List Nat
  | 0, ns => ns.headD []
  | f + 1, ns => if ns.length ≤ 1 then ns.headD [] else merkleRootFuel f (merklePairUp ns)

/-- The padded leaf list stored by `MerkleTree::new`: leaf hashes, and a
duplicate of the last one when the count is odd. -/
def merkleLeaves (data : List (List Nat)) : List (List Nat) :=
  let leaves := data.map sha256
  if leaves.length % 2 = 1 then leaves ++ [leaves.getLastD []] else leaves

/-- `MerkleTree::root_hash` (`none` for an empty tree). -/
def merkleRootHash (data : List (List Nat)) : Option (List Nat) :=
  if data.isEmpty then none
  else
    let leaves := merkleLeaves data
    some (merkleRootFuel leaves.length leaves)

/-- The level loop of `MerkleTree::get_proof`, with fuel: at each level with
more than one node, push the sibling hash IF its index is in range (a last
node on an odd level has none and contributes nothing), then ascend. -/
def merkleProofFuel : Nat → List (List Nat) → Nat → List (List Nat)
  | 0, _, _ => []
  | f + 1, ns, idx =>
    if ns.length ≤ 1 then []
    else
      let sib := if idx % 2 = 0 then idx + 1 else idx - 1
      (if h : sib < ns.length then [ns.get ⟨sib, h⟩] else [])
        ++ merkleProofFuel f (merklePairUp ns) (idx / 2)

/-- `MerkleTree::get_proof`: `none` when the index is outside the (padded)
leaf list, else the collected sibling hashes. -/
def merkleGetProof (data : List (List Nat)) (index : Nat) : Option (List (List Nat)) :=
  let leaves := merkleLeaves data
  if leaves.length ≤ index then none
  else some (merkleProofFuel leaves.length leaves index)

/-- The proof-folding loop of `MerkleNode::verify`: combine with each sibling
on the side given by the current index parity, halving the index each
step. -/
def merkleFold (cur : List Nat) (proof : List (List Nat)) (idx : Nat) : List Nat :=
  match proof with
  | [] => cur
  | sib :: rest =>
    let next := if idx % 2 = 0 then merkleCombine cur sib else merkleCombine sib cur
    merkleFold next rest (idx / 2)

/-- `MerkleTree::verify_proof`: fold the proof from the leaf data and compare
with the root hash; an empty tree verifies nothing. -/
def merkleVerifyProof (data : List (List Nat)) (leafData : List Nat)
    (proof : List (List Nat)) (index : Nat) : Bool :=
  match merkleRootHash data with
  | some root => merkleFold (sha256 leafData) proof index == root
  | none => false

/-- Equality on `Except` results is decidable componentwise. -/
instance instDecidableEqExcept {ε α : Type} [DecidableEq ε] [DecidableEq α] :
    DecidableEq (Except ε α)
  | .ok a, .ok b =>
    if h : a = b then .isTrue (congrArg Except.ok h)
    else .isFalse fun hh => h (Except.ok.inj hh)
  | .error a, .error b =>
    if h : a = b then .isTrue (congrArg Except.error h)
    else .isFalse fun hh => h (Except.error.inj hh)
  | .ok _, .error _ => .isFalse fun hh => Except.noConfusion hh
  | .error _, .ok _ => .isFalse fun hh => Except.noConfusion hh

/-! ## Concrete instances used by the claim theorems -/

/-- A default transaction (used only as a `getD` fallback). -/
def emptyTx : Transaction := ⟨"", [], []⟩

/-- The genesis scenario's coinbase: recipient address `"abc"` (valid
Base58), ambient timestamp 0. -/
def genesisCoinbase : Transaction :=
  (Transaction.newCoinbase "abc" 0).toOption.getD emptyTx

/-- The genesis scenario's block: the single coinbase, previous hash `"0"`,
ambient timestamp 0. -/
def genesisBlock : Block := Block.new [genesisCoinbase] "0" 0

/-- A transaction with an empty id (and no inputs or outputs). -/
def txIdEmpty : Transaction := ⟨"", [], []⟩

/-- The same transaction with `"x"` stored in the id field. -/
def txIdX : Transaction := ⟨"x", [], []⟩

/-- A valid secret key: 1, as 32 big-endian bytes. -/
def oneSecret : List Nat := List.replicate 31 0 ++ [1]

/-- A signing-capable wallet with a one-byte public key. -/
def sigWallet : Wallet := ⟨oneSecret, [2]⟩

/-- An unsigned single-input transaction for the signing theorems. -/
def c2BaseTx : Transaction := ⟨"", [⟨"a", 0, [], [], 5⟩], []⟩

/-- Its signed form. -/
def c2SignedTx : Transaction := (c2BaseTx.sign sigWallet).toOption.getD emptyTx

/-- A block whose mining at difficulty 1 takes exactly one nonce increment
(timestamp 30 was chosen to make that happen). -/
def c3Base : Block := Block.new [] "" 30

/-- The mined form of `c3Base`. -/
def c3Mined : Block := (mineBlockFuel 5 c3Base 1).getD c3Base

/-- Six Merkle leaves: the first leaf count at which an intermediate tree
level has odd length. -/
def c4Data : List (List Nat) := [[0], [1], [2], [3], [4], [5]]

/-- Four Merkle leaves: a power-of-two leaf count. -/
def c4DataPow : List (List Nat) := [[0], [1], [2], [3]]

/-- The Base58Check payload of the signing wallet's address. -/
def c6AddrHash : List Nat := (b58Decode sigWallet.getAddress).getD []

/-- A UTXO set holding a single output of 3 for the signing wallet. -/
def c6UtxoSmall : UTXOSet := ⟨[("t1", [(0, ⟨3, c6AddrHash⟩)])]⟩

/-- A UTXO set holding a single output of 4 for the signing wallet. -/
def c6UtxoMid : UTXOSet := ⟨[("t1", [(0, ⟨4, c6AddrHash⟩)])]⟩

/-- A UTXO map with an entry under txid `"t"`. -/
def c7Map : UtxoMap := [("t", [(0, ⟨5, [1]⟩)])]

/-- A transaction whose id `"t"` collides with the existing entry. -/
def c7NewTx : Transaction := ⟨"t", [], [⟨7, [2]⟩]⟩

/-- A coinbase transaction with id `"c"`. -/
def c7CbTx : Transaction := ⟨"c", [⟨"0_5", 0, [], [], 50⟩], [⟨50, [3]⟩]⟩

/-- A UTXO map that already binds `"c"`. -/
def c7MapCb : UtxoMap := [("c", [(0, ⟨9, [4]⟩)])]

/-- A mempool transaction with txid `"a"`. -/
def c8TxA : Transaction := ⟨"a", [], []⟩

/-- A mempool transaction with txid `"b"`. -/
def c8TxB : Transaction := ⟨"b", [], []⟩

/-- Entry for `c8TxB`: fee rate 1, arrived at time 10 (newer). -/
def c8EntryB : TransactionEntry := ⟨c8TxB, 10, 1, true⟩

/-- Entry for `c8TxA`: fee rate 1, arrived at time 5 (older). -/
def c8EntryA : TransactionEntry := ⟨c8TxA, 5, 1, true⟩

/-- A pool whose snapshot iterates the newer equal-fee entry first. -/
def c8Pool : Mempool := ⟨[("b", c8EntryB), ("a", c8EntryA)], UTXOSet.new, 5000⟩

/-- A read-only wallet (empty secret key). -/
def readOnlyWallet : Wallet := ⟨[], [2]⟩

/-- A 32-byte message. -/
def msg32 : List Nat := List.replicate 32 0

/-- Whether a signing result is an `InvalidSignature`-kind error. -/
def errIsInvalidSignature : Except Error (List Nat) → Bool
  | .error (.InvalidSignature _) => true
  | _ => false

/-- A transaction that passes the coinbase classification test but has a
negative input value, a negative output value and no backing UTXO. -/
def c10Tx : Transaction := ⟨"", [⟨"0_evil", 0, [], [], -5⟩], [⟨-1, []⟩]⟩

end RustBtc

/-- SHA-256 test vector: the digest of the empty message. -/
theorem sha256_empty_vector :
    RustBtc.sha256Hex [] =
      "e3b0c44298fc1c149afbf4c8996fb92427ae41e4649b934ca495991b7852b855" := by
  decide

/-- SHA-256 test vector: the digest of "abc". -/
theorem sha256_abc_vector :
    RustBtc.sha256Hex [97, 98, 99] =
      "ba7816bf8f01cfea414140de5dae2223b00361a396177a9cb410ff61f20015ad" := by
  decide

/-- RIPEMD-160 test vector: the digest of the empty message. -/
theorem ripemd160_empty_vector :
    RustBtc.hexEncode (RustBtc.ripemd160 []) =
      "9c1185a5c5e9fc54612808977ee8f548b2258d31" := by
  decide

/-- RIPEMD-160 test vector: the digest of "abc". -/
theorem ripemd160_abc_vector :
    RustBtc.hexEncode (RustBtc.ripemd160 [97, 98, 99]) =
      "8eb208f7e05d987a9b044a8e98c6b087f15a0bfc" := by
  decide

/-- Base58 test: decoding is left inverse to encoding on a sample payload. -/
theorem b58_roundtrip_sample :
    RustBtc.b58Decode (RustBtc.b58Encode [0, 0, 255, 17, 3]) = some [0, 0, 255, 17, 3] := by
  decide

namespace RustBtc

/-! ## Claim theorems -/

/-- C1 (code evaluation at the failing input): the claims' genesis scenario
fails. The coinbase paying `"abc"` has input total 50 equal to its output
total 50, so `verify_transaction_data` — which demands a strictly greater
input total — returns false, `Block::is_valid` returns false, and
`Blockchain::add_block` rejects the genesis block with `InvalidBlock`
instead of appending it. -/
theorem c1_genesis_append_rejected :
    Transaction.newCoinbase "abc" 0 = .ok genesisCoinbase ∧
    genesisCoinbase.verifyTransactionData = false ∧
    genesisBlock.isValid 0 = false ∧
    Blockchain.new.addBlock genesisBlock 0 =
      .error (.InvalidBlock "区块验证失败") := by
  decide

/-- C5 (code evaluation at the failing input): admitting a coinbase to a
fresh mempool does not succeed: `validate_transaction` rejects it with
`InvalidAmount` (input total 50 is not strictly greater than output total
50) before the duplicate check is ever reached. -/
theorem c5_coinbase_admission_rejected :
    Transaction.newCoinbase "abc" 0 = .ok genesisCoinbase ∧
    (Mempool.new UTXOSet.new).addTransaction genesisCoinbase 0 =
      .error (.InvalidAmount "输入总额 50 必须大于输出总额 50") := by
  decide

/-- C2 counterexample: two transactions identical except for the value
stored in the id field hash differently, so `Transaction::hash` is NOT
insensitive to the id field — the serialization it hashes includes `id`. -/
theorem c2_hash_depends_on_id :
    txIdEmpty.vin = txIdX.vin ∧ txIdEmpty.vout = txIdX.vout ∧
    Transaction.hash txIdEmpty ≠ Transaction.hash txIdX := by
  decide

/-- C3 counterexample: a block built by `Block::new` and then mined at
difficulty 1 (one nonce increment) stores a hash that does NOT equal the
SHA-256 of its serialization with the hash field emptied — the mining loop
hashes serializations still carrying the previous stored hash. -/
theorem c3_mined_hash_not_over_empty_hash_field :
    mineBlockFuel 5 c3Base 1 = some c3Mined ∧
    strStartsWith c3Mined.hash (zeroTarget 1) = true ∧
    c3Mined.hash ≠ Block.calculateHash { c3Mined with hash := "" } := by
  decide

/-- C4 counterexample: with six leaves, `get_proof(4)` returns a proof (the
odd middle level contributes no sibling) that `verify` then rejects — the
round-trip claim fails at leaf index 4. -/
theorem c4_proof_fails_at_six_leaves :
    4 < c4Data.length ∧
    merkleGetProof c4Data 4 = some ((merkleGetProof c4Data 4).getD []) ∧
    merkleVerifyProof c4Data [4] ((merkleGetProof c4Data 4).getD []) 4 = false := by
  decide

/-- C6 counterexample: with one spendable output of 3 and `amount = 2` the
accumulated value 3 exceeds the amount, so the claim promises a change
output `(3 - 2 - 1, from) = (0, from)`; the code instead fails, because
`TxOutput::new` rejects the zero change value with `InvalidAmount`. -/
theorem c6_zero_change_rejected :
    UTXOSet.findSpendableOutputs c6UtxoSmall sigWallet.getAddress 2 =
      .ok [⟨"t1", 0, 3⟩] ∧
    Transaction.new sigWallet "z" 2 c6UtxoSmall =
      .error (.InvalidAmount "交易输出金额 0 无效") := by
  decide

/-- C7 counterexample: `UTXOSet::update` applied to a transaction whose id
is already present does not keep the existing entry — it overwrites it (the
skip-with-warning lives in `reindex`, not `update`). -/
theorem c7_update_overwrites_duplicate :
    mapGet c7Map "t" = some [(0, ⟨5, [1]⟩)] ∧
    mapGet (UTXOSet.update ⟨c7Map⟩ [c7NewTx]).utxos "t" ≠ some [(0, ⟨5, [1]⟩)] := by
  decide

/-- C8 counterexample: two entries with equal fee rates keep their snapshot
order (the newer entry first), while the spec's tie-breaking (older first)
demands the opposite order — the selection implements no tie-breaking. -/
theorem c8_no_tie_breaking :
    c8Pool.getTransactionsForNewBlock 2 = [c8TxB, c8TxA] ∧
    specGetTransactionsForBlock c8Pool 2 = [c8TxA, c8TxB] := by
  decide

/-- C9 counterexample: signing with a read-only wallet fails with the
`ValidationError` kind, not the `InvalidSignature` kind the claim names. -/
theorem c9_read_only_error_kind :
    readOnlyWallet.sign msg32 = .error (.ValidationError "无法使用只读钱包签名") ∧
    errIsInvalidSignature (readOnlyWallet.sign msg32) = false := by
  decide

/-- When some binding carries the key, replacing those bindings makes the
first hit `(k, v)`. -/
theorem find_map_replace (k : String) (v : List (Nat × TxOutput)) :
    ∀ m : UtxoMap, (m.any fun p => p.1 == k) = true →
      List.find? (fun p => p.1 == k)
        (m.map fun p => if p.1 == k then (k, v) else p) = some (k, v) := by
  intro m
  induction m with
  | nil => intro h; simp at h
  | cons p rest ih =>
    intro h
    by_cases hp : (p.1 == k) = true
    · rw [List.map_cons, if_pos hp]
      exact List.find?_cons_of_pos _ (by simp)
    · have hp2 : (p.1 == k) = false := by simpa using hp
      rw [List.map_cons, if_neg hp]
      rw [List.find?_cons_of_neg _ (by simp [hp2])]
      apply ih
      simpa [List.any_cons, hp2] using h

/-- When no binding carries the key, an appended `(k, v)` is the first
hit. -/
theorem find_append_miss (k : String) (v : List (Nat × TxOutput)) :
    ∀ m : UtxoMap, (m.any fun p => p.1 == k) = false →
      List.find? (fun p => p.1 == k) (m ++ [(k, v)]) = some (k, v) := by
  intro m
  induction m with
  | nil => intro _; simp
  | cons p rest ih =>
    intro h
    rw [List.any_cons, Bool.or_eq_false_iff] at h
    rw [List.cons_append, List.find?_cons_of_neg _ (by simp [h.1])]
    exact ih h.2

/-- Inserting a binding makes it the one `mapGet` finds. -/
theorem mapGet_mapInsert (m : UtxoMap) (k : String) (v : List (Nat × TxOutput)) :
    mapGet (mapInsert m k v) k = some v := by
  cases hany : (m.any fun p => p.1 == k) with
  | true =>
    unfold mapGet mapInsert
    rw [if_pos hany, find_map_replace k v m hany]
    rfl
  | false =>
    unfold mapGet mapInsert
    rw [if_neg (by simp [hany]), find_append_miss k v m hany]
    rfl

/-- A successful lookup means some binding carries the key. -/
theorem any_of_mapGet_some (m : UtxoMap) (k : String) (v : List (Nat × TxOutput))
    (h : mapGet m k = some v) : (m.any fun p => p.1 == k) = true := by
  unfold mapGet at h
  cases hf : m.find? (fun p => p.1 == k) with
  | none => rw [hf] at h; cases h
  | some p =>
    have hpk := List.find?_some hf
    exact List.any_eq_true.mpr ⟨p, List.mem_of_find?_eq_some hf, hpk⟩

/-- C7 amended: `UTXOSet::update` inserts every transaction's outputs under
its id unconditionally, REPLACING any entry already stored there; the
skip-on-duplicate applies in `reindex`, whose per-transaction step keeps the
existing entry untouched (shown here for a coinbase, which skips the
input-removal phase). -/
theorem c7_amended (m : UtxoMap) (tx : Transaction) (v : List (Nat × TxOutput)) :
    mapGet (UTXOSet.update ⟨m⟩ [tx]).utxos tx.id = some (enumOutputs tx) ∧
    (mapGet m tx.id = some v → tx.isCoinbase = true →
      mapGet (reindexApplyTx m tx) tx.id = some v) := by
  constructor
  · show mapGet (updateApplyTx m tx) tx.id = some (enumOutputs tx)
    unfold updateApplyTx
    exact mapGet_mapInsert _ _ _
  · intro hget hcb
    unfold reindexApplyTx
    rw [hcb]
    simp only [if_true, any_of_mapGet_some m tx.id v hget]
    exact hget

/-- C7 witness: a concrete overwrite by `update` and a concrete
keep-existing by the `reindex` step. -/
theorem c7_witness :
    mapGet (UTXOSet.update ⟨c7MapCb⟩ [c7CbTx]).utxos "c" = some (enumOutputs c7CbTx) ∧
    mapGet (reindexApplyTx c7MapCb c7CbTx) "c" = some [(0, ⟨9, [4]⟩)] :=
  ⟨(c7_amended c7MapCb c7CbTx []).1,
   (c7_amended c7MapCb c7CbTx [(0, ⟨9, [4]⟩)]).2 (by decide) (by decide)⟩

/-- The `mapM` accumulator loop of an everywhere-successful effectful
function succeeds with the pointwise results. -/
theorem mapM_loop_ok {α β ε : Type} (f : α → Except ε β) (g : α → β)
    (h : ∀ a, f a = .ok (g a)) (l : List α) :
    ∀ acc : List β, List.mapM.loop f l acc = .ok (acc.reverse ++ l.map g) := by
  induction l with
  | nil =>
    intro acc
    simp only [List.mapM.loop, List.map_nil, List.append_nil]
    rfl
  | cons a r ih =>
    intro acc
    show (f a >>= fun b => List.mapM.loop f r (b :: acc)) = _
    rw [h a]
    show List.mapM.loop f r (g a :: acc) = _
    rw [ih (g a :: acc)]
    simp

/-- Mapping an everywhere-successful effectful function over a list succeeds
with the pointwise results. -/
theorem mapM_ok_of_all {α β ε : Type} (f : α → Except ε β) (g : α → β)
    (h : ∀ a, f a = .ok (g a)) (l : List α) : l.mapM f = .ok (l.map g) := by
  show List.mapM.loop f l [] = _
  rw [mapM_loop_ok f g h l []]
  rfl

/-- The `mapM` loop propagates a failure of the head element. -/
theorem mapM_loop_cons_error {α β ε : Type} (f : α → Except ε β) (a : α)
    (l : List α) (acc : List β) (e : ε) (h : f a = .error e) :
    List.mapM.loop f (a :: l) acc = .error e := by
  show (f a >>= fun b => List.mapM.loop f l (b :: acc)) = _
  rw [h]
  rfl

/-- Signing every input with an available signature succeeds pointwise. -/
theorem signInputs_ok (w : Wallet) (hb : List Nat) (s : List Nat)
    (hs : w.sign hb = .ok s) (l : List TxInput) :
    (l.mapM fun i => do
        let sig ← w.sign hb
        pure { i with pubkey := w.public_key, signature := sig }) =
      .ok (l.map fun i => { i with pubkey := w.public_key, signature := s }) :=
  mapM_ok_of_all _ _
    (fun i => by
      show (w.sign hb >>= fun sig =>
        pure { i with pubkey := w.public_key, signature := sig }) = _
      rw [hs]
      rfl) l

/-- Signing the inputs fails as soon as the wallet's signing fails. -/
theorem signInputs_error (w : Wallet) (hb : List Nat) (e : Error)
    (hs : w.sign hb = .error e) (i : TxInput) (rest : List TxInput) :
    ((i :: rest).mapM fun j => do
        let sig ← w.sign hb
        pure { j with pubkey := w.public_key, signature := sig }) = .error e := by
  show List.mapM.loop _ (i :: rest) [] = _
  exact mapM_loop_cons_error _ i rest [] e (by
    show (w.sign hb >>= fun sig =>
      pure { i with pubkey := w.public_key, signature := sig }) = _
    rw [hs]
    rfl)

/-- Stripping undoes the field writes of signing. -/
theorem map_strip_signed (w : Wallet) (s : List Nat) (l : List TxInput) :
    (l.map fun i => { i with pubkey := w.public_key, signature := s }).map
        (fun i => { i with signature := ([] : List Nat), pubkey := ([] : List Nat) }) =
      l.map fun i => { i with signature := ([] : List Nat), pubkey := ([] : List Nat) } := by
  rw [List.map_map]
  rfl

/-- C2 amended: signing changes only the inputs' signature and pubkey
fields, which `Transaction::hash` zeroes, so the hash — and the stored id
and the outputs — survive signing unchanged. (The hash is NOT independent
of the id field; see the counterexample.) -/
theorem c2_amended (tx : Transaction) (w : Wallet) (tx2 : Transaction)
    (h : tx.sign w = .ok tx2) :
    tx2.hash = tx.hash ∧ tx2.id = tx.id ∧ tx2.vout = tx.vout := by
  unfold Transaction.sign at h
  by_cases hc : tx.isCoinbase = true
  · simp only [hc, if_true] at h
    cases h
    exact ⟨rfl, rfl, rfl⟩
  · simp only [Bool.not_eq_true] at hc
    simp only [hc, Bool.false_eq_true, if_false] at h
    cases hd : hexDecode tx.hash with
    | none =>
      simp only [hd] at h
      exact Except.noConfusion h
    | some hb =>
      simp only [hd] at h
      cases hs : w.sign hb with
      | error e =>
        cases hv : tx.vin with
        | nil =>
          rw [hv] at h
          have h3 : Except.ok { tx with vin := ([] : List TxInput) } =
              Except.ok tx2 := h
          have h2 : tx2 = { tx with vin := ([] : List TxInput) } :=
            (Except.ok.inj h3).symm
          subst h2
          refine ⟨?_, rfl, rfl⟩
          show Transaction.hash { tx with vin := ([] : List TxInput) } = tx.hash
          rw [show ([] : List TxInput) = tx.vin from hv.symm]
        | cons i rest =>
          rw [hv] at h
          rw [signInputs_error w hb e hs i rest] at h
          exact Except.noConfusion (show Except.error e = Except.ok tx2 from h)
      | ok s =>
        rw [signInputs_ok w hb s hs tx.vin] at h
        have h3 : Except.ok { tx with vin := tx.vin.map fun i =>
            { i with pubkey := w.public_key, signature := s } } =
            Except.ok tx2 := h
        have h2 : tx2 = { tx with vin := tx.vin.map fun i =>
            { i with pubkey := w.public_key, signature := s } } :=
          (Except.ok.inj h3).symm
        subst h2
        refine ⟨?_, rfl, rfl⟩
        show Transaction.hash { tx with vin := tx.vin.map fun i =>
            { i with pubkey := w.public_key, signature := s } } = tx.hash
        unfold Transaction.hash txStrip
        rw [show ({ tx with vin := tx.vin.map fun i =>
            { i with pubkey := w.public_key, signature := s } } : Transaction).vin
          = tx.vin.map (fun i => { i with pubkey := w.public_key, signature := s })
          from rfl]
        rw [map_strip_signed w s tx.vin]

/-- C2 witness: a concrete non-coinbase transaction signed by a concrete
wallet keeps its hash, id and outputs. -/
theorem c2_witness :
    c2SignedTx.hash = c2BaseTx.hash ∧ c2SignedTx.id = c2BaseTx.id ∧
    c2SignedTx.vout = c2BaseTx.vout :=
  c2_amended c2BaseTx sigWallet c2SignedTx (by decide)

/-- C8 amended: the block-assembly selection is the prefix of a stable sort
of the snapshot by fee rate DESCENDING ONLY: the result is a fee-sorted
permutation in which equal-fee entries keep their snapshot (map iteration)
order — no timestamp or txid tie-breaking exists. -/
theorem c8_amended (mp : Mempool) (maxSize : Nat) :
    ∃ s : List TransactionEntry,
      s.Perm (mp.transactions.map (·.2)) ∧
      List.Sorted entryGe s ∧
      (∀ a b, List.Sublist [a, b] (mp.transactions.map (·.2)) → b.fee ≤ a.fee →
        List.Sublist [a, b] s) ∧
      mp.getTransactionsForNewBlock maxSize = (s.take maxSize).map (·.transaction) := by
  refine ⟨(mp.transactions.map (·.2)).insertionSort entryGe, ?_, ?_, ?_, ?_⟩
  · exact List.perm_insertionSort entryGe _
  · exact List.sorted_insertionSort entryGe _
  · exact fun _ _ hsub hfee => List.pair_sublist_insertionSort hfee hsub
  · rfl

/-- C8 witness: on the concrete two-entry pool the sorted permutation is
pinned down by stability, giving the snapshot-ordered selection. -/
theorem c8_witness : c8Pool.getTransactionsForNewBlock 2 = [c8TxB, c8TxA] := by
  obtain ⟨s, hperm, hsort, hstab, heq⟩ := c8_amended c8Pool 2
  have hsnap : c8Pool.transactions.map (·.2) = [c8EntryB, c8EntryA] := rfl
  have hs : List.Sublist [c8EntryB, c8EntryA] s := by
    apply hstab
    · rw [hsnap]
    · norm_num [c8EntryA, c8EntryB]
  have hlen : s.length = 2 := by
    rw [hperm.length_eq, hsnap]
    rfl
  have hseq : [c8EntryB, c8EntryA] = s := by
    apply hs.eq_of_length
    rw [hlen]
    rfl
  rw [heq, ← hseq]
  rfl

/-- One pairing level halves the node count, rounding up. -/
theorem merklePairUp_length : ∀ ns : List (List Nat),
    (merklePairUp ns).length = (ns.length + 1) / 2
  | [] => rfl
  | [_] => by simp [merklePairUp]
  | x :: y :: r => by
    show (merklePairUp r).length + 1 = _
    rw [merklePairUp_length r]
    simp only [List.length_cons]
    omega

/-- On an index with an in-range partner, one pairing level stores the
combination of the adjacent pair. -/
theorem merklePairUp_getD : ∀ (ns : List (List Nat)) (j : Nat), 2 * j + 1 < ns.length →
    (merklePairUp ns).getD j [] =
      merkleCombine (ns.getD (2 * j) []) (ns.getD (2 * j + 1) [])
  | [], j, h => by simp at h
  | [_], j, h => by simp at h
  | x :: y :: r, 0, _ => rfl
  | x :: y :: r, j + 1, h => by
    show (merklePairUp r).getD j [] = _
    have hj : 2 * j + 1 < r.length := by
      simp only [List.length_cons] at h
      omega
    rw [merklePairUp_getD r j hj]
    have e1 : 2 * (j + 1) = 2 * j + 1 + 1 := by ring
    have e2 : 2 * (j + 1) + 1 = 2 * j + 1 + 1 + 1 := by ring
    rw [e2, e1]
    simp [List.getD_cons_succ]

/-- The heart of the corrected Merkle claim: on a level of exactly `2 ^ k`
nodes every index has a sibling, and folding the collected proof from any
leaf reproduces the root. -/
theorem merkleFold_root : ∀ (f k : Nat) (ns : List (List Nat)) (i : Nat),
    k ≤ f → ns.length = 2 ^ k → i < ns.length →
    merkleFold (ns.getD i []) (merkleProofFuel f ns i) i = merkleRootFuel f ns := by
  intro f
  induction f with
  | zero =>
    intro k ns i hk hlen hi
    have hk0 : k = 0 := Nat.le_zero.mp hk
    subst hk0
    obtain ⟨x, hx⟩ := List.length_eq_one.mp (by simpa using hlen)
    subst hx
    have hi0 : i = 0 := by simpa using hi
    subst hi0
    rfl
  | succ f ih =>
    intro k ns i hk hlen hi
    cases k with
    | zero =>
      obtain ⟨x, hx⟩ := List.length_eq_one.mp (by simpa using hlen)
      subst hx
      have hi0 : i = 0 := by simpa using hi
      subst hi0
      rfl
    | succ k2 =>
      have hpow2 : ns.length = 2 * 2 ^ k2 := by
        rw [hlen, Nat.pow_succ]
        ring
      have hnot : ¬ ns.length ≤ 1 := by
        have : 1 ≤ 2 ^ k2 := Nat.one_le_two_pow
        omega
      have heven : ns.length % 2 = 0 := by omega
      by_cases hp : i % 2 = 0
      · have hsib : i + 1 < ns.length := by omega
        have hproof : merkleProofFuel (f + 1) ns i =
            ns.getD (i + 1) [] :: merkleProofFuel f (merklePairUp ns) (i / 2) := by
          show (if ns.length ≤ 1 then _ else _) = _
          rw [if_neg hnot]
          rw [if_pos hp]
          show (if h : i + 1 < ns.length then [ns.get ⟨i + 1, h⟩] else [])
              ++ merkleProofFuel f (merklePairUp ns) (i / 2) = _
          rw [dif_pos hsib]
          rw [List.getD_eq_getElem _ _ hsib]
          rfl
        have hroot : merkleRootFuel (f + 1) ns = merkleRootFuel f (merklePairUp ns) := by
          show (if ns.length ≤ 1 then _ else _) = _
          rw [if_neg hnot]
        rw [hproof, hroot]
        show merkleFold
            (if i % 2 = 0 then merkleCombine (ns.getD i []) (ns.getD (i + 1) [])
             else merkleCombine (ns.getD (i + 1) []) (ns.getD i []))
            (merkleProofFuel f (merklePairUp ns) (i / 2)) (i / 2) = _
        rw [if_pos hp]
        have hcomb : merkleCombine (ns.getD i []) (ns.getD (i + 1) []) =
            (merklePairUp ns).getD (i / 2) [] := by
          have e1 : 2 * (i / 2) = i := by omega
          rw [merklePairUp_getD ns (i / 2) (by omega), e1]
        rw [hcomb]
        exact ih k2 (merklePairUp ns) (i / 2) (by omega)
          (by rw [merklePairUp_length, hpow2]; omega) (by rw [merklePairUp_length]; omega)
      · have hsib : i - 1 < ns.length := by omega
        have hproof : merkleProofFuel (f + 1) ns i =
            ns.getD (i - 1) [] :: merkleProofFuel f (merklePairUp ns) (i / 2) := by
          show (if ns.length ≤ 1 then _ else _) = _
          rw [if_neg hnot]
          rw [if_neg hp]
          show (if h : i - 1 < ns.length then [ns.get ⟨i - 1, h⟩] else [])
              ++ merkleProofFuel f (merklePairUp ns) (i / 2) = _
          rw [dif_pos hsib]
          rw [List.getD_eq_getElem _ _ hsib]
          rfl
        have hroot : merkleRootFuel (f + 1) ns = merkleRootFuel f (merklePairUp ns) := by
          show (if ns.length ≤ 1 then _ else _) = _
          rw [if_neg hnot]
        rw [hproof, hroot]
        show merkleFold
            (if i % 2 = 0 then merkleCombine (ns.getD i []) (ns.getD (i - 1) [])
             else merkleCombine (ns.getD (i - 1) []) (ns.getD i []))
            (merkleProofFuel f (merklePairUp ns) (i / 2)) (i / 2) = _
        rw [if_neg hp]
        have hcomb : merkleCombine (ns.getD (i - 1) []) (ns.getD i []) =
            (merklePairUp ns).getD (i / 2) [] := by
          have e1 : 2 * (i / 2) = i - 1 := by omega
          have e2 : 2 * (i / 2) + 1 = i := by omega
          rw [merklePairUp_getD ns (i / 2) (by omega), e2, e1]
        rw [hcomb]
        exact ih k2 (merklePairUp ns) (i / 2) (by omega)
          (by rw [merklePairUp_length, hpow2]; omega) (by rw [merklePairUp_length]; omega)

/-- The stored (padded) leaf list is at least as long as the data list. -/
theorem merkleLeaves_length_ge (data : List (List Nat)) :
    data.length ≤ (merkleLeaves data).length := by
  unfold merkleLeaves
  simp only [List.length_map]
  by_cases h : data.length % 2 = 1 <;> simp [h]

/-- Below the data length, the stored leaves are the leaf hashes. -/
theorem merkleLeaves_getD (data : List (List Nat)) (i : Nat) (hi : i < data.length) :
    (merkleLeaves data).getD i [] = sha256 (data.getD i []) := by
  have hmap : (data.map sha256).getD i [] = sha256 (data.getD i []) := by
    rw [List.getD_eq_getElem _ _ (by simpa using hi), List.getElem_map,
      List.getD_eq_getElem _ _ hi]
  unfold merkleLeaves
  simp only [List.length_map]
  by_cases h : data.length % 2 = 1
  · rw [if_pos h, List.getD_append _ _ _ _ (by simpa using hi)]
    exact hmap
  · rw [if_neg h]
    exact hmap

/-- C4 amended: the proof returned by `get_proof(i)` verifies against the
root whenever the stored (padded) leaf count is a power of two — then every
level has even length and no sibling is skipped. (For other leaf counts the
round-trip fails; see the counterexample.) -/
theorem c4_amended (data : List (List Nat)) (i k : Nat) (proof : List (List Nat))
    (hi : i < data.length)
    (hpow : (merkleLeaves data).length = 2 ^ k)
    (hproof : merkleGetProof data i = some proof) :
    merkleVerifyProof data (data.getD i []) proof i = true := by
  have hil : i < (merkleLeaves data).length :=
    lt_of_lt_of_le hi (merkleLeaves_length_ge data)
  have hne : data.isEmpty = false := by
    cases data with
    | nil => simp at hi
    | cons a l => rfl
  unfold merkleGetProof at hproof
  rw [if_neg (by omega)] at hproof
  have hpf : proof = merkleProofFuel (merkleLeaves data).length (merkleLeaves data) i :=
    (Option.some.inj hproof).symm
  subst hpf
  unfold merkleVerifyProof merkleRootHash
  rw [hne]
  show (merkleFold (sha256 (data.getD i [])) _ i ==
    merkleRootFuel (merkleLeaves data).length (merkleLeaves data)) = true
  rw [← merkleLeaves_getD data i hi]
  rw [merkleFold_root (merkleLeaves data).length k (merkleLeaves data) i
    (by rw [hpow]; exact Nat.le_of_lt (Nat.lt_two_pow k)) hpow hil]
  exact beq_self_eq_true _

/-- C4 witness: with four leaves (a power of two) the proof for leaf 0
verifies. -/
theorem c4_witness :
    merkleVerifyProof c4DataPow (c4DataPow.getD 0 [])
      ((merkleGetProof c4DataPow 0).getD []) 0 = true :=
  c4_amended c4DataPow 0 2 ((merkleGetProof c4DataPow 0).getD [])
    (by decide) (by decide) (by decide)

/-- Binding a success applies the continuation. -/
theorem except_bind_ok {ε α β : Type} (a : α) (f : α → Except ε β) :
    (Except.ok a >>= f) = f a := rfl

/-- Binding a pure value applies the continuation. -/
theorem except_pure_bind {ε α β : Type} (a : α) (f : α → Except ε β) :
    ((pure a : Except ε α) >>= f) = f a := rfl

/-- Binding a failure propagates it. -/
theorem except_bind_error {ε α β : Type} (e : ε) (f : α → Except ε β) :
    ((Except.error e : Except ε α) >>= f) = Except.error e := rfl

/-- `beBytes` emits exactly the requested width. -/
theorem length_beBytes : ∀ k v, (beBytes k v).length = k
  | 0, _ => rfl
  | k + 1, v => by simp [beBytes, length_beBytes k]

/-- `beBytes` emits bytes. -/
theorem beBytes_lt : ∀ k v b, b ∈ beBytes k v → b < 256
  | 0, _, b, h => by simp [beBytes] at h
  | k + 1, v, b, h => by
    simp only [beBytes, List.mem_append, List.mem_singleton] at h
    rcases h with h | h
    · exact beBytes_lt k _ b h
    · rw [h]
      exact Nat.mod_lt _ (by norm_num)

/-- A SHA-256 digest is 32 bytes long. -/
theorem sha256_length (msg : List Nat) : (sha256 msg).length = 32 := by
  simp [sha256, digestBytes, length_beBytes]

/-- Concatenation preserves the byte bound. -/
theorem append_lt (l1 l2 : List Nat) (h1 : ∀ b ∈ l1, b < 256)
    (h2 : ∀ b ∈ l2, b < 256) : ∀ b ∈ l1 ++ l2, b < 256 := by
  intro b hb
  cases List.mem_append.mp hb with
  | inl h => exact h1 b h
  | inr h => exact h2 b h

/-- A digest consists of bytes. -/
theorem digestBytes_lt (s : ShaState) : ∀ b ∈ digestBytes s, b < 256 :=
  append_lt _ _ (append_lt _ _ (append_lt _ _ (append_lt _ _ (append_lt _ _
    (append_lt _ _ (append_lt _ _ (beBytes_lt 4 _) (beBytes_lt 4 _))
      (beBytes_lt 4 _)) (beBytes_lt 4 _)) (beBytes_lt 4 _)) (beBytes_lt 4 _))
    (beBytes_lt 4 _)) (beBytes_lt 4 _)

/-- A SHA-256 digest consists of bytes. -/
theorem sha256_lt256 (msg : List Nat) : ∀ b ∈ sha256 msg, b < 256 :=
  digestBytes_lt _

/-- Decoding inverts encoding on a hex digit. -/
theorem hexDigit_roundtrip : ∀ n, n < 16 → hexDigitVal (hexChars.getD n '0') = some n := by
  decide

/-- Decoding inverts encoding on the character level. -/
theorem hexDecodeChars_encode : ∀ bs : List Nat, (∀ b ∈ bs, b < 256) →
    hexDecodeChars (bs.foldr
      (fun b r => hexChars.getD (b / 16) '0' :: hexChars.getD (b % 16) '0' :: r) []) =
      some bs := by
  intro bs
  induction bs with
  | nil => intro _; rfl
  | cons b rest ih =>
    intro h
    have hb : b < 256 := h b (List.mem_cons_self b rest)
    show hexDecodeChars (hexChars.getD (b / 16) '0' :: hexChars.getD (b % 16) '0' :: _) = _
    simp only [hexDecodeChars]
    rw [hexDigit_roundtrip (b / 16) (by omega), hexDigit_roundtrip (b % 16) (by omega)]
    rw [ih (fun x hx => h x (List.mem_cons_of_mem b hx))]
    show some ((b / 16 * 16 + b % 16) :: rest) = some (b :: rest)
    have hbb : b / 16 * 16 + b % 16 = b := by omega
    rw [hbb]

/-- The hex-encoded transaction hash decodes back to the digest bytes. -/
theorem hexDecode_tx_hash (tx : Transaction) :
    hexDecode tx.hash = some (sha256 (serTransaction (txStrip tx))) :=
  hexDecodeChars_encode (sha256 (serTransaction (txStrip tx))) (sha256_lt256 _)

/-- A wallet with a parseable secret key signs any 32-byte message. -/
theorem sign_ok_of_valid (w : Wallet) (m : List Nat)
    (hsk : secretKeyOk w.secret_key = true) (hm : m.length = 32) :
    w.sign m = .ok (ecdsaSignCompact w.secret_key m) := by
  have hne : w.secret_key ≠ [] := by
    intro h
    rw [h] at hsk
    simp [secretKeyOk] at hsk
  simp [Wallet.sign, hne, hsk, hm]

/-- With a parseable secret key, `Transaction::sign` succeeds and keeps the
outputs. -/
theorem sign_exists_vout (t : Transaction) (w : Wallet) (V : List TxOutput)
    (hsk : secretKeyOk w.secret_key = true) (hv : t.vout = V) :
    ∃ tx2, t.sign w = .ok tx2 ∧ tx2.vout = V := by
  unfold Transaction.sign
  by_cases hc : t.isCoinbase = true
  · exact ⟨t, by simp [hc], hv⟩
  · simp only [Bool.not_eq_true] at hc
    simp only [hc, Bool.false_eq_true, if_false, hexDecode_tx_hash t]
    rw [signInputs_ok w _ _
      (sign_ok_of_valid w _ hsk (sha256_length (serTransaction (txStrip t)))) t.vin]
    exact ⟨_, rfl, hv⟩

/-- C6 amended: with a positive amount, decodable addresses and a signing
key, `Transaction::new` propagates `InsufficientFunds` from UTXO selection
(the whole set below `amount`); on a successful selection with accumulated
total `acc` it builds the primary output `(amount, to)` alone when
`acc = amount`, fails with `InvalidAmount` when `acc = amount + 1` (the
change value `acc - amount - 1` is zero, which `TxOutput::new` rejects),
and adds the change output `(acc - amount - 1, from)` only when
`acc > amount + 1`. -/
theorem c6_amended (w : Wallet) (toAddr : String) (amount : Int) (u : UTXOSet)
    (th fh : List Nat)
    (hamt : 0 < amount)
    (hto : b58Decode toAddr = some th)
    (hfrom : b58Decode w.getAddress = some fh)
    (hsk : secretKeyOk w.secret_key = true) :
    (∀ msg, u.findSpendableOutputs w.getAddress amount =
        .error (.InsufficientFunds msg) →
      Transaction.new w toAddr amount u = .error (.InsufficientFunds msg)) ∧
    (∀ infos, u.findSpendableOutputs w.getAddress amount = .ok infos →
      ((infos.map (·.value)).foldl (· + ·) 0 = amount →
        ∃ tx, Transaction.new w toAddr amount u = .ok tx ∧
          tx.vout = [⟨amount, th⟩]) ∧
      ((infos.map (·.value)).foldl (· + ·) 0 = amount + 1 →
        Transaction.new w toAddr amount u =
          .error (.InvalidAmount "交易输出金额 0 无效")) ∧
      (amount + 1 < (infos.map (·.value)).foldl (· + ·) 0 →
        ∃ tx, Transaction.new w toAddr amount u = .ok tx ∧
          tx.vout = [⟨amount, th⟩,
            ⟨(infos.map (·.value)).foldl (· + ·) 0 - amount - 1, fh⟩])) := by
  have hneg : ¬ amount ≤ 0 := by omega
  have hprim : TxOutput.new amount toAddr = .ok ⟨amount, th⟩ := by
    unfold TxOutput.new
    rw [if_neg hneg, hto]
  constructor
  · intro msg hsel
    unfold Transaction.new
    rw [if_neg hneg, hsel]
    rfl
  · intro infos hsel
    refine ⟨?_, ?_, ?_⟩
    · intro hacc
      have hnlt : ¬ (infos.map (·.value)).foldl (· + ·) 0 < amount := by omega
      have hnlt2 : ¬ amount < (infos.map (·.value)).foldl (· + ·) 0 := by omega
      unfold Transaction.new
      rw [if_neg hneg, hsel]
      simp only [except_bind_ok]
      rw [if_neg hnlt, hprim]
      simp only [except_bind_ok]
      rw [if_neg hnlt2]
      simp only [except_pure_bind]
      exact sign_exists_vout _ w _ hsk rfl
    · intro hacc
      have hnlt : ¬ (infos.map (·.value)).foldl (· + ·) 0 < amount := by omega
      have hlt2 : amount < (infos.map (·.value)).foldl (· + ·) 0 := by omega
      have hz : (infos.map (·.value)).foldl (· + ·) 0 - amount - 1 = 0 := by omega
      have hchange : TxOutput.new ((infos.map (·.value)).foldl (· + ·) 0 - amount - 1)
          w.getAddress = .error (.InvalidAmount "交易输出金额 0 无效") := by
        rw [hz]
        unfold TxOutput.new
        rw [if_pos (le_refl (0 : Int))]
        rfl
      unfold Transaction.new
      rw [if_neg hneg, hsel]
      simp only [except_bind_ok]
      rw [if_neg hnlt, hprim]
      simp only [except_bind_ok]
      rw [if_pos hlt2, hchange]
      rfl
    · intro hacc
      have hnlt : ¬ (infos.map (·.value)).foldl (· + ·) 0 < amount := by omega
      have hlt2 : amount < (infos.map (·.value)).foldl (· + ·) 0 := by omega
      have hpos : ¬ (infos.map (·.value)).foldl (· + ·) 0 - amount - 1 ≤ 0 := by omega
      have hchange : TxOutput.new ((infos.map (·.value)).foldl (· + ·) 0 - amount - 1)
          w.getAddress =
          .ok ⟨(infos.map (·.value)).foldl (· + ·) 0 - amount - 1, fh⟩ := by
        unfold TxOutput.new
        rw [if_neg hpos, hfrom]
      unfold Transaction.new
      rw [if_neg hneg, hsel]
      simp only [except_bind_ok]
      rw [if_neg hnlt, hprim]
      simp only [except_bind_ok]
      rw [if_pos hlt2, hchange]
      simp only [except_bind_ok, except_pure_bind]
      exact sign_exists_vout _ w _ hsk rfl

/-- C6 witness: spending 3 out of a single 4-valued output hits the
`acc = amount + 1` branch and fails on the zero change value. -/
theorem c6_witness :
    Transaction.new sigWallet "z" 3 c6UtxoMid =
      .error (.InvalidAmount "交易输出金额 0 无效") :=
  ((c6_amended sigWallet "z" 3 c6UtxoMid [57] c6AddrHash (by decide) (by decide)
      (by decide) (by decide)).2 [⟨"t1", 0, 4⟩] (by decide)).2.1 (by decide)

/-- C10: `Transaction::verify` returns `Ok(true)` for every transaction with
exactly one input whose txid starts with `"0_"` — whatever its outputs,
input value, signatures, or the UTXO set — because the coinbase
classification short-circuits all other checks. -/
theorem c10_coinbase_verify_short_circuit (tx : Transaction) (u : UTXOSet)
    (h1 : tx.vin.length = 1)
    (h2 : ∀ i ∈ tx.vin, strStartsWith i.txid "0_" = true) :
    tx.verify u = .ok true := by
  obtain ⟨i, hvin⟩ := List.length_eq_one.mp h1
  have hc : tx.isCoinbase = true := by
    unfold Transaction.isCoinbase
    rw [hvin]
    exact h2 i (hvin ▸ List.mem_singleton_self i)
  simp [Transaction.verify, hc]

/-- C10 witness: a concrete coinbase-shaped transaction with a negative
input value, a negative output and no backing UTXO still verifies. -/
theorem c10_witness : c10Tx.verify UTXOSet.new = .ok true :=
  c10_coinbase_verify_short_circuit c10Tx UTXOSet.new (by decide) (by decide)

/-- C3 amended: a block fresh from `Block::new` does store the SHA-256 of
its serialization with the hash field empty, and a mining call whose target
is already met returns the block unchanged (zero iterations), preserving
that equation; the equation is lost as soon as the mining loop iterates. -/
theorem c3_amended (txs : List Transaction) (prev : String) (ts : Nat) :
    (Block.new txs prev ts).hash
      = Block.calculateHash { Block.new txs prev ts with hash := "" } ∧
    (∀ d f, strStartsWith (Block.new txs prev ts).hash (zeroTarget d) = true →
      mineBlockFuel f (Block.new txs prev ts) d = some (Block.new txs prev ts)) := by
  refine ⟨rfl, fun d f h => ?_⟩
  cases f <;> simp [mineBlockFuel, h]

/-- C3 witness: the empty-transactions block at timestamp 0, with a
difficulty-0 mining call. -/
theorem c3_witness :
    (Block.new [] "" 0).hash
      = Block.calculateHash { Block.new [] "" 0 with hash := "" } ∧
    mineBlockFuel 3 (Block.new [] "" 0) 0 = some (Block.new [] "" 0) :=
  ⟨(c3_amended [] "" 0).1, (c3_amended [] "" 0).2 0 3 (by decide)⟩

/-- C9 amended: `Wallet::sign` fails with `ValidationError` (not
`InvalidSignature`) when the secret key is empty; with a parseable 32-byte
secret key and a 32-byte message it returns the 64-byte compact
signature. -/
theorem c9_amended (w : Wallet) (m : List Nat) :
    (w.secret_key = [] → w.sign m = .error (.ValidationError "无法使用只读钱包签名")) ∧
    (secretKeyOk w.secret_key = true → m.length = 32 →
      w.sign m = .ok (ecdsaSignCompact w.secret_key m) ∧
      (ecdsaSignCompact w.secret_key m).length = 64) := by
  constructor
  · intro h
    simp [Wallet.sign, h]
  · intro hsk hm
    have hparts := hsk
    simp only [secretKeyOk, Bool.and_eq_true, beq_iff_eq, decide_eq_true_eq] at hparts
    have hne : w.secret_key ≠ [] := by
      intro h
      rw [h] at hparts
      simp at hparts
    refine ⟨by simp [Wallet.sign, hne, hsk, hm], ?_⟩
    simp [ecdsaSignCompact, hparts.1.1, hm]

/-- C9 witness: the read-only failure at a concrete wallet, and a concrete
64-byte signature. -/
theorem c9_witness :
    readOnlyWallet.sign msg32 = .error (.ValidationError "无法使用只读钱包签名") ∧
    sigWallet.sign msg32 = .ok (ecdsaSignCompact oneSecret msg32) ∧
    (ecdsaSignCompact oneSecret msg32).length = 64 :=
  ⟨(c9_amended readOnlyWallet msg32).1 rfl,
   ((c9_amended sigWallet msg32).2 (by decide) (by decide)).1,
   ((c9_amended sigWallet msg32).2 (by decide) (by decide)).2⟩

end RustBtc
